import Mathlib

/-!
Shallow embedding of the flex-rate-limit library core: the in-memory store,
the remote (Redis-backed) store, the four rate-limiting algorithms and the
`RateLimiter` orchestrator, together with theorems checking the
natural-language specification against this embedding.

Modelling conventions:
* JavaScript numbers are modelled as `ℚ`; `Date.now()` is an explicit `now`
  parameter, and a single `check` call uses one logical clock value.
* JavaScript objects persisted by the stores (`{count}`, `{requests}`,
  `{tokens, lastRefill}`, `{water, lastLeak}`) become a record of optional
  fields, so that presence/absence of a field is modelled exactly.
* `async` code has no observable interleaving inside one call, so each store
  operation is a state transformer `σ → Except String α × σ`; a thrown
  exception is the `Except.error` case and leaves the (possibly mutated)
  state available, as in JavaScript.
* The token/leaky-bucket readers access `data.tokens`/`data.lastRefill`
  (resp. `data.water`/`data.lastLeak`).  When a stored record lacks these
  fields JavaScript would propagate `NaN`; such records never arise for a
  key operated by that algorithm, and the embedding maps a record missing
  the fields to the same path as an absent record.
-/

namespace FlexRateLimit

/-- JavaScript truthiness of an optional number: `undefined`, `null` and `0`
are falsy; every other number is truthy (`NaN` does not arise in ℚ). -/
def jsTruthyQ : Option ℚ → Bool
  | none => false
  | some q => decide (q ≠ 0)

/-- A stored JavaScript object, as persisted by the stores.  Each field is
present (`some`) or absent (`undefined`, `none`). -/
structure JsRecord where
  count : Option ℚ := none
  requests : Option (List ℚ) := none
  tokens : Option ℚ := none
  lastRefill : Option ℚ := none
  water : Option ℚ := none
  lastLeak : Option ℚ := none
deriving Repr, DecidableEq

/-- The storage-backend contract used by the algorithms and the limiter
(`get` / `set` / `increment` / `decrement` / `reset`).  Every operation may
throw; the state after the call is returned in either case. -/
structure Store (σ : Type) where
  get : String → σ → Except String (Option JsRecord) × σ
  set : String → JsRecord → Option ℚ → σ → Except String Unit × σ
  increment : String → Option ℚ → Option ℚ → σ → Except String ℚ × σ
  decrement : String → σ → Except String Unit × σ
  reset : String → σ → Except String Unit × σ

/-! ### In-memory store (`lib/stores/memory-store.js`)

A map entry records the stored value together with the TTL installed by the
most recent asynchronous `set` (the pending deletion timer); `set` with a
falsy TTL clears the timer without scheduling a new one. -/

/-- One entry of the in-memory store: the stored object and the TTL of the
pending expiry timer, if any. -/
structure MemEntry where
  val : JsRecord
  ttl : Option ℚ := none
deriving Repr, DecidableEq

/-- The in-memory store state: the underlying `Map`. -/
def MemState : Type := String → Option MemEntry

/-- The empty in-memory store. -/
def MemState.empty : MemState := fun _ => none

/-- Point update: `Map.set` on the backing map (value and timer). -/
def MemState.insert (s : MemState) (k : String) (e : MemEntry) : MemState :=
  fun k' => if k' = k then some e else s k'

/-- Point removal: `Map.delete` plus timer removal. -/
def MemState.erase (s : MemState) (k : String) : MemState :=
  fun k' => if k' = k then none else s k'

/-- TTL actually retained by `MemoryStore.set`: a falsy `ttl` argument
schedules no timer. -/
def normTtl (t : Option ℚ) : Option ℚ :=
  if jsTruthyQ t then t else none

namespace MemoryStore

/-- Embeds `MemoryStore.get(key)`. -/
def get (k : String) (s : MemState) : Except String (Option JsRecord) × MemState :=
  (.ok ((s k).map (·.val)), s)

/-- Embeds `MemoryStore.set(key, value, ttl)`: store the value, clear any existing
timer, and schedule expiry after `ttl` when `ttl` is truthy. -/
def set (k : String) (v : JsRecord) (ttl : Option ℚ) (s : MemState) :
    Except String Unit × MemState :=
  (.ok (), s.insert k ⟨v, normTtl ttl⟩)

/-- Embeds `MemoryStore.increment(key, options)` with its `windowMs` and
`timestamp` options. -/
def increment (k : String) (windowMs timestamp : Option ℚ) (s : MemState) :
    Except String ℚ × MemState :=
  match s k with
  | none =>
      let value : JsRecord :=
        if jsTruthyQ timestamp then { requests := some [timestamp.getD 0] }
        else { count := some 1 }
      (.ok 1, s.insert k ⟨value, normTtl windowMs⟩)
  | some e =>
      if jsTruthyQ timestamp then
        let reqs := e.val.requests.getD [] ++ [timestamp.getD 0]
        (.ok (reqs.length : ℚ),
          s.insert k ⟨{ e.val with requests := some reqs }, normTtl windowMs⟩)
      else
        let c := (if jsTruthyQ e.val.count then e.val.count.getD 0 else 0) + 1
        (.ok c, s.insert k ⟨{ e.val with count := some c }, normTtl windowMs⟩)

/-- Embeds `MemoryStore.decrement(key)`: raw `Map.set`, leaving the timer alone. -/
def decrement (k : String) (s : MemState) : Except String Unit × MemState :=
  match s k with
  | none => (.ok (), s)
  | some e =>
      match e.val.count with
      | some c => (.ok (), s.insert k ⟨{ e.val with count := some (max 0 (c - 1)) }, e.ttl⟩)
      | none =>
          match e.val.requests with
          | some l =>
              if l.length > 0 then
                (.ok (), s.insert k ⟨{ e.val with requests := some l.dropLast }, e.ttl⟩)
              else (.ok (), s)
          | none => (.ok (), s)

/-- Embeds `MemoryStore.reset(key)`: delete the entry and cancel its timer. -/
def reset (k : String) (s : MemState) : Except String Unit × MemState :=
  (.ok (), s.erase k)

end MemoryStore

/-- The in-memory store packaged as a `Store`. -/
def memStore : Store MemState where
  get := MemoryStore.get
  set := MemoryStore.set
  increment := MemoryStore.increment
  decrement := MemoryStore.decrement
  reset := MemoryStore.reset

/-- A store whose every operation throws, used to check the fail-open
behaviour of the limiter (its `get`/`set` always raise). -/
def failStore : Store Unit where
  get := fun _ s => (.error "store get failed", s)
  set := fun _ _ _ s => (.error "store set failed", s)
  increment := fun _ _ _ s => (.error "store increment failed", s)
  decrement := fun _ s => (.error "store decrement failed", s)
  reset := fun _ s => (.error "store reset failed", s)

/-! ### Algorithms (`lib/algorithms/*.js`) -/

/-- Options received by an algorithm `check`: `windowMs` (always forwarded
by the limiter) plus the optional bucket parameters carried by the caller
context. -/
structure AlgOptions where
  windowMs : ℚ
  capacity : Option ℚ := none
  refillRate : Option ℚ := none
  leakRate : Option ℚ := none
deriving Repr, DecidableEq

/-- Result of an algorithm `check`: `{count, resetTime}`. -/
structure AlgResult where
  count : ℚ
  resetTime : ℚ
deriving Repr, DecidableEq

deriving instance DecidableEq for Except

namespace SlidingWindow

/-- Embeds the `sliding-window.js` `check(store, key, options)` at clock `now`. -/
def check (S : Store σ) (key : String) (o : AlgOptions) (now : ℚ) (s : σ) :
    Except String AlgResult × σ :=
  let windowStart := now - o.windowMs
  match S.get key s with
  | (.error e, s) => (.error e, s)
  | (.ok data, s) =>
      match data.bind (·.requests) with
      | none =>
          match S.increment key (some o.windowMs) (some now) s with
          | (.error e, s) => (.error e, s)
          | (.ok _, s) => (.ok ⟨1, now + o.windowMs⟩, s)
      | some reqs =>
          let validRequests := reqs.filter (fun t => windowStart < t)
          let count := validRequests.length
          let pushed := validRequests ++ [now]
          match S.set key { requests := some pushed } (some o.windowMs) s with
          | (.error e, s) => (.error e, s)
          | (.ok _, s) =>
              let first := pushed.headD now
              let oldestRequest := if first = 0 then now else first
              (.ok ⟨(count : ℚ) + 1, oldestRequest + o.windowMs⟩, s)

end SlidingWindow

namespace FixedWindow

/-- The store key actually touched by the fixed-window algorithm:
`` `${key}:${windowKey}` ``. -/
def fullKey (key : String) (windowKey : ℤ) : String :=
  key ++ ":" ++ toString windowKey

/-- Embeds the `fixed-window.js` `check(store, key, options)` at clock `now`. -/
def check (S : Store σ) (key : String) (o : AlgOptions) (now : ℚ) (s : σ) :
    Except String AlgResult × σ :=
  let windowKey : ℤ := ⌊now / o.windowMs⌋
  match S.increment (fullKey key windowKey) (some o.windowMs) none s with
  | (.error e, s) => (.error e, s)
  | (.ok c, s) => (.ok ⟨c, ((windowKey : ℚ) + 1) * o.windowMs⟩, s)

end FixedWindow

namespace TokenBucket

/-- The refill computation of `token-bucket.js`: tokens available after
adding `(now − lastRefill) / windowMs × refillRate`, capped at `capacity`;
an absent (or untyped, see module comment) record starts at `capacity`. -/
def refilled (data : Option JsRecord) (capacity refillRate windowMs now : ℚ) : ℚ :=
  match data with
  | none => capacity
  | some d =>
      match d.tokens, d.lastRefill with
      | some tk, some lastRefill =>
          min capacity (tk + (now - lastRefill) / windowMs * refillRate)
      | _, _ => capacity

/-- Embeds the `token-bucket.js` `check(store, key, options)` at clock `now`. -/
def check (S : Store σ) (key : String) (o : AlgOptions) (now : ℚ) (s : σ) :
    Except String AlgResult × σ :=
  let capacity := o.capacity.getD 10
  let refillRate := o.refillRate.getD 1
  match S.get key s with
  | (.error e, s) => (.error e, s)
  | (.ok data, s) =>
      let tokens := refilled data capacity refillRate o.windowMs now
      if 1 ≤ tokens then
        let tokens' := tokens - 1
        match S.set key { tokens := some tokens', lastRefill := some now }
            (some (o.windowMs * capacity)) s with
        | (.error e, s) => (.error e, s)
        | (.ok _, s) =>
            (.ok ⟨capacity - tokens', now + 1 / refillRate * o.windowMs⟩, s)
      else
        (.ok ⟨capacity + 1, now + (1 - tokens) / refillRate * o.windowMs⟩, s)

end TokenBucket

namespace LeakyBucket

/-- The leak computation of `leaky-bucket.js`: water level after leaking
`(now − lastLeak) / windowMs × leakRate`, floored at `0`; an absent (or
untyped) record starts at `0`. -/
def leaked (data : Option JsRecord) (leakRate windowMs now : ℚ) : ℚ :=
  match data with
  | none => 0
  | some d =>
      match d.water, d.lastLeak with
      | some w, some lastLeak => max 0 (w - (now - lastLeak) / windowMs * leakRate)
      | _, _ => 0

/-- Embeds the `leaky-bucket.js` `check(store, key, options)` at clock `now`. -/
def check (S : Store σ) (key : String) (o : AlgOptions) (now : ℚ) (s : σ) :
    Except String AlgResult × σ :=
  let capacity := o.capacity.getD 10
  let leakRate := o.leakRate.getD 1
  match S.get key s with
  | (.error e, s) => (.error e, s)
  | (.ok data, s) =>
      let water := leaked data leakRate o.windowMs now
      if water < capacity then
        let water' := water + 1
        match S.set key { water := some water', lastLeak := some now }
            (some (o.windowMs * capacity)) s with
        | (.error e, s) => (.error e, s)
        | (.ok _, s) =>
            (.ok ⟨water', now + water' / leakRate * o.windowMs⟩, s)
      else
        (.ok ⟨capacity + 1, now + (water - capacity + 1) / leakRate * o.windowMs⟩, s)

end LeakyBucket

/-- The four recognised algorithms. -/
inductive Algorithm
  | slidingWindow
  | fixedWindow
  | tokenBucket
  | leakyBucket
deriving Repr, DecidableEq

/-- Dispatch of `algorithms/index.js`. -/
def Algorithm.check (a : Algorithm) (S : Store σ) (key : String) (o : AlgOptions)
    (now : ℚ) (s : σ) : Except String AlgResult × σ :=
  match a with
  | .slidingWindow => SlidingWindow.check S key o now s
  | .fixedWindow => FixedWindow.check S key o now s
  | .tokenBucket => TokenBucket.check S key o now s
  | .leakyBucket => LeakyBucket.check S key o now s

/-! ### Limiter orchestrator (`lib/rate-limiter.js`) -/

/-- The configured quota: a static number or an (async, possibly failing)
function of the request context, as validated by the constructor. -/
inductive MaxOpt (Ctx : Type)
  | num (q : ℚ)
  | fn (f : Option Ctx → Except String ℚ)

/-- Validated limiter configuration used by `check`/`reset`. -/
structure LimiterOptions (Ctx : Type) where
  windowMs : ℚ
  max : MaxOpt Ctx
  algorithm : Algorithm

/-- The admission decision returned by `RateLimiter.check`.  The `limit` and
`remaining` fields hold whatever JavaScript value the code stores there: a
number on the success path, and the raw configured `max` (possibly a
function) on the fail-open path. -/
structure Decision (Ctx : Type) where
  allowed : Bool
  limit : MaxOpt Ctx
  current : ℚ
  remaining : MaxOpt Ctx
  resetTime : ℚ
  retryAfter : ℚ
  error : Option String := none

/-- Quota resolution at the top of `check`: call the function with
`options.req` when `max` is dynamic. -/
def resolveMax (m : MaxOpt Ctx) (req : Option Ctx) : Except String ℚ :=
  match m with
  | .num q => .ok q
  | .fn f => f req

/-- The fail-open decision built in the `catch` branch of `check`. -/
def failOpenDecision (opts : LimiterOptions Ctx) (e : String) (now : ℚ) : Decision Ctx :=
  { allowed := true
    limit := opts.max
    current := 0
    remaining := opts.max
    resetTime := now + opts.windowMs
    retryAfter := 0
    error := some e }

/-- The key-validation error message thrown by `check`/`reset`. -/
def keyErrMsg : String := "键必须是非空字符串"

/-- The algorithm parameters that a caller context can contribute through
the `{windowMs, max, ...options}` spread in `check`. -/
structure CtxExtras where
  capacity : Option ℚ := none
  refillRate : Option ℚ := none
  leakRate : Option ℚ := none
deriving Repr, DecidableEq

/-- The option object handed to the algorithm by `check`. -/
def CtxExtras.algOptions (x : CtxExtras) (windowMs : ℚ) : AlgOptions :=
  { windowMs := windowMs
    capacity := x.capacity
    refillRate := x.refillRate
    leakRate := x.leakRate }

namespace RateLimiter

/-- Embeds `RateLimiter.check(key, options)` at clock `now`.  `req` is
`options.req` (fed to a dynamic quota) and `extras` carries the
algorithm parameters of the caller context.  The only exception that
escapes is the synchronous key validation; every fault from quota
resolution, the algorithm or the store is collapsed into a fail-open
decision. -/
def check (S : Store σ) (opts : LimiterOptions Ctx) (key : String)
    (req : Option Ctx) (extras : CtxExtras) (now : ℚ) (s : σ) :
    Except String (Decision Ctx) × σ :=
  if key = "" then (.error keyErrMsg, s)
  else
    match resolveMax opts.max req with
    | .error e => (.ok (failOpenDecision opts e now), s)
    | .ok m =>
        match opts.algorithm.check S key (extras.algOptions opts.windowMs) now s with
        | (.error e, s) => (.ok (failOpenDecision opts e now), s)
        | (.ok result, s) =>
            (.ok { allowed := decide (result.count ≤ m)
                   limit := .num m
                   current := result.count
                   remaining := .num (max 0 (m - result.count))
                   resetTime := result.resetTime
                   retryAfter := if m < result.count then result.resetTime - now else 0 }, s)

/-- Embeds `RateLimiter.reset(key)`. -/
def reset (S : Store σ) (key : String) (s : σ) : Except String Unit × σ :=
  if key = "" then (.error keyErrMsg, s) else S.reset key s

end RateLimiter

/-! ### Constructor validation (`rate-limiter.js` `_validateOptions`,
`_initializeStore`, `_initializeAlgorithm`) -/

/-- The JavaScript value supplied for `windowMs` or `max`: a number, a
function, or anything else. -/
inductive JsOptVal
  | num (q : ℚ)
  | fnVal
  | otherVal
deriving Repr, DecidableEq

/-- Which methods a user-supplied store object implements. -/
structure StoreMethods where
  increment : Bool
  get : Bool
  reset : Bool
  set : Bool
  decrement : Bool
  resetAll : Bool
deriving Repr, DecidableEq

/-- The JavaScript value supplied for `options.store`. -/
inductive StoreOpt
  | strVal (s : String)
  | objVal (m : StoreMethods)
  | otherTruthy
  | undef
deriving Repr, DecidableEq

/-- JavaScript truthiness of the `store` option (`undefined`/`null`/`''`/`0`
are falsy). -/
def StoreOpt.truthy : StoreOpt → Bool
  | .strVal s => !s.isEmpty
  | .objVal _ => true
  | .otherTruthy => true
  | .undef => false

/-- Raw constructor options; `none` means the field was not supplied and the
default applies. -/
structure RawOptions where
  windowMs : Option JsOptVal := none
  max : Option JsOptVal := none
  algorithm : Option String := none
  store : Option StoreOpt := none
deriving Repr, DecidableEq

/-- The recognised algorithm names. -/
def validAlgorithms : List String :=
  ["sliding-window", "fixed-window", "token-bucket", "leaky-bucket"]

/-- The checks of `_validateOptions` on the defaulted `windowMs`, `max` and
`algorithm`, in source order. -/
def validateCore (windowMs mx : JsOptVal) (algorithm : String) : Except String Unit :=
  match windowMs with
  | .num q =>
      if q ≤ 0 then .error "windowMs 必须是正数"
      else
        match mx with
        | .num m =>
            if m ≤ 0 then .error "max 必须是正数"
            else if algorithm ∈ validAlgorithms then .ok ()
            else .error "algorithm 必须是以下之一"
        | .fnVal =>
            if algorithm ∈ validAlgorithms then .ok ()
            else .error "algorithm 必须是以下之一"
        | .otherVal => .error "max 必须是数字或函数"
  | _ => .error "windowMs 必须是正数"

/-- Embeds `_validateOptions`: merge with the defaults, then check `windowMs`,
`max` and `algorithm`. -/
def validateOptions (o : RawOptions) : Except String Unit :=
  validateCore (o.windowMs.getD (.num 60000)) (o.max.getD (.num 100))
    (o.algorithm.getD "sliding-window")

/-- Embeds `_initializeStore`: falsy or `'memory'` selects the in-memory store, a
`redis://` string builds a Redis store, an object must structurally provide
`increment`, `get` and `reset`, and anything else is rejected. -/
def initializeStore (store : StoreOpt) : Except String Unit :=
  if !store.truthy then .ok ()
  else
    match store with
    | .strVal s =>
        if s = "memory" then .ok ()
        else if "redis://".isPrefixOf s then .ok ()
        else .error "无效的存储配置"
    | .objVal m =>
        if !m.increment then .error "存储必须实现 increment 方法"
        else if !m.get then .error "存储必须实现 get 方法"
        else if !m.reset then .error "存储必须实现 reset 方法"
        else .ok ()
    | .otherTruthy => .error "无效的存储配置"
    | .undef => .error "无效的存储配置"

/-- Embeds `_initializeAlgorithm`: looks the validated name up in the registry; all
four recognised names are registered. -/
def initializeAlgorithm (name : String) : Except String Unit :=
  if name ∈ validAlgorithms then .ok () else .error "未知算法"

/-- The whole synchronous constructor run. -/
def constructorRun (o : RawOptions) : Except String Unit := do
  validateOptions o
  initializeStore (o.store.getD (.strVal "memory"))
  initializeAlgorithm (o.algorithm.getD "sliding-window")

/-- The spec's notion of the full Store contract, as listed in its Store
interface section: `get`, `set`, `increment`, `decrement`, `reset`,
`resetAll`. -/
def StoreMethods.fullContract (m : StoreMethods) : Prop :=
  m.increment = true ∧ m.get = true ∧ m.reset = true ∧ m.set = true ∧
    m.decrement = true ∧ m.resetAll = true

/-- The claim's characterisation of invalid (defaulted) options: `windowMs`
not a positive number, `max` neither a positive number nor callable,
`algorithm` unrecognised, or an object store that misses part of the full
Store contract.  This is a transcription of the specification sentence, to
be compared with `constructorRun`. -/
def claimInvalidOptions (o : RawOptions) : Prop :=
  (¬ ∃ q : ℚ, o.windowMs.getD (.num 60000) = .num q ∧ 0 < q) ∨
  (¬ (o.max.getD (.num 100) = .fnVal ∨ ∃ q : ℚ, o.max.getD (.num 100) = .num q ∧ 0 < q)) ∨
  o.algorithm.getD "sliding-window" ∉ validAlgorithms ∨
  (∃ m : StoreMethods, o.store.getD (.strVal "memory") = .objVal m ∧ ¬ m.fullContract)

/-- The store options `_initializeStore` accepts: a falsy value, the
string `'memory'`, a `redis://` string, or an object exposing `increment`,
`get` and `reset`. -/
def storeAccepted (st : StoreOpt) : Prop :=
  st.truthy = false ∨
  (∃ s : String, st = .strVal s ∧ (s = "memory" ∨ "redis://".isPrefixOf s = true)) ∨
  (∃ m : StoreMethods, st = .objVal m ∧
    m.increment = true ∧ m.get = true ∧ m.reset = true)

/-- The code's actual rejection condition (the amended claim): the three
validated option checks, plus a store option that is truthy but neither the
string `'memory'`, a `redis://` string, nor an object exposing `increment`,
`get` and `reset`. -/
def codeInvalidOptions (o : RawOptions) : Prop :=
  (¬ ∃ q : ℚ, o.windowMs.getD (.num 60000) = .num q ∧ 0 < q) ∨
  (¬ (o.max.getD (.num 100) = .fnVal ∨ ∃ q : ℚ, o.max.getD (.num 100) = .num q ∧ 0 < q)) ∨
  o.algorithm.getD "sliding-window" ∉ validAlgorithms ∨
  ¬ storeAccepted (o.store.getD (.strVal "memory"))

/-! ### Remote store (`lib/stores/redis-store.js`)

Only the operations the claims need are modelled: `increment` (sliding
mode) and `decrement`.  A Redis value is an integer counter string (as
written by `INCR`), a JSON document (as written by `SETEX`), or a sorted
set.  TTLs of the remote store are not modelled. -/

/-- A value held at a Redis key. -/
inductive RVal
  | intStr (n : ℤ)
  | doc (r : JsRecord)
  | zset (entries : List (ℚ × String))
deriving Repr, DecidableEq

/-- The remote key-value state. -/
def RState : Type := String → Option RVal

/-- The empty remote state. -/
def RState.empty : RState := fun _ => none

/-- Point update of a remote state. -/
def RState.insert (s : RState) (k : String) (v : RVal) : RState :=
  fun k' => if k' = k then some v else s k'

/-- Embeds `ZPOPMAX`: remove one entry with the greatest score. -/
def zpopmax (es : List (ℚ × String)) : List (ℚ × String) :=
  match es.argmax Prod.fst with
  | none => es
  | some e => es.erase e

/-- Embeds `TYPE fullKey` as a string, as `RedisStore.decrement` consults it. -/
def redisType (s : RState) (k : String) : String :=
  match s k with
  | some (.zset _) => "zset"
  | some _ => "string"
  | none => "none"

namespace RedisStore

/-- Embeds `RedisStore.increment` in sliding-window mode (a truthy `timestamp`):
drop old entries from the companion sorted set `fullKey:scores`, add the
new timestamp under a uniquifying member, and return the cardinality.
`member` stands for the random-suffixed member string. -/
def incrementSliding (pfx key : String) (windowMs timestamp : ℚ)
    (member : String) (now : ℚ) (s : RState) : Except String ℚ × RState :=
  let scoreKey := pfx ++ key ++ ":scores"
  let windowStart := now - windowMs
  let old := match s scoreKey with
    | some (.zset es) => es
    | _ => []
  let kept := old.filter (fun e => windowStart < e.1)
  let es := kept ++ [(timestamp, member)]
  (.ok (es.length : ℚ), s.insert scoreKey (.zset es))

/-- Embeds `RedisStore.decrement(key)`: pop the newest sorted-set entry when
`TYPE fullKey` is a zset, otherwise decrement a positive integer counter
(`parseInt` of a JSON document is `NaN`, so documents are left alone). -/
def decrement (pfx key : String) (s : RState) : Except String Unit × RState :=
  let fullKey := pfx ++ key
  if redisType s fullKey = "zset" then
    match s (fullKey ++ ":scores") with
    | some (.zset es) => (.ok (), s.insert (fullKey ++ ":scores") (.zset (zpopmax es)))
    | _ => (.ok (), s)
  else
    match s fullKey with
    | some (.intStr n) =>
        if 0 < n then (.ok (), s.insert fullKey (.intStr (n - 1))) else (.ok (), s)
    | _ => (.ok (), s)

end RedisStore

/-! ### Operation sequences against one key (for key independence and the
sliding-window invariant) -/

/-- One client operation against a fixed key of one limiter: a rate-limit
check at some clock value, a `reset`, or a store-level `decrement`. -/
inductive ClientOp
  | checkOp (now : ℚ) (extras : CtxExtras)
  | resetOp
  | decOp

/-- Effect of a single client operation on the in-memory store. -/
def applyOp (opts : LimiterOptions Ctx) (k : String) (s : MemState) :
    ClientOp → MemState
  | .checkOp now extras => (RateLimiter.check memStore opts k none extras now s).2
  | .resetOp => (RateLimiter.reset memStore k s).2
  | .decOp => (memStore.decrement k s).2

/-- Effect of a sequence of client operations against key `k`. -/
def applyOps (opts : LimiterOptions Ctx) (k : String) (s : MemState)
    (ops : List ClientOp) : MemState :=
  ops.foldl (applyOp opts k) s

/-- The single store key read (and written) by a check of `key` under the
given algorithm at clock `now`: the raw key, except that the fixed-window
algorithm works on `key:⌊now / windowMs⌋`. -/
def readKey (a : Algorithm) (key : String) (windowMs now : ℚ) : String :=
  match a with
  | .fixedWindow => FixedWindow.fullKey key ⌊now / windowMs⌋
  | _ => key

/-- Events in the life of a key used only by the sliding-window algorithm:
a check at some clock value, or the TTL timer firing and deleting the key. -/
inductive SwEvent
  | checkAt (now : ℚ)
  | expire

/-- Effect of one sliding-window event on the in-memory store. -/
def swStep (k : String) (W : ℚ) (s : MemState) : SwEvent → MemState
  | .checkAt now => (SlidingWindow.check memStore k { windowMs := W } now s).2
  | .expire => s.erase k

/-- Effect of a sequence of sliding-window events. -/
def swRun (k : String) (W : ℚ) (s : MemState) (evs : List SwEvent) : MemState :=
  evs.foldl (swStep k W) s

/-- Clock sanity along an event list: check times are positive and
non-decreasing, starting from lower bound `b`. -/
def timesOk : ℚ → List SwEvent → Prop
  | _, [] => True
  | b, .checkAt t :: rest => b ≤ t ∧ 0 < t ∧ timesOk t rest
  | b, .expire :: rest => timesOk b rest

/-- The clock value of the last check in an event list (or the initial
bound `b` when there is none). -/
def endBound : ℚ → List SwEvent → ℚ
  | b, [] => b
  | _, .checkAt t :: rest => endBound t rest
  | b, .expire :: rest => endBound b rest

/-- State invariant of a key used only by the sliding-window algorithm
against the in-memory store: the key is absent, or holds a lone `requests`
record with TTL `windowMs` whose list is non-empty, sorted, and made of
positive timestamps not exceeding the clock bound `b`. -/
def swInv (k : String) (W : ℚ) (s : MemState) (b : ℚ) : Prop :=
  s k = none ∨ ∃ l : List ℚ, s k = some ⟨{ requests := some l }, some W⟩ ∧
    l ≠ [] ∧ l.Sorted (· ≤ ·) ∧ ∀ t ∈ l, 0 < t ∧ t ≤ b

/-- The timestamp list stored for a key in the in-memory store (empty when
the key or its `requests` field is absent). -/
def slidingStored (s : MemState) (key : String) : List ℚ :=
  ((((s key).map (·.val)).bind (·.requests)).getD [])

/-- The timestamps a sliding-window check at clock `now` retains from the
stored list: those newer than `now − windowMs`. -/
def slidingRetained (s : MemState) (key : String) (W now : ℚ) : List ℚ :=
  (slidingStored s key).filter (fun t => now - W < t)

/-! ## Theorems -/

/-- C1: when key validation, quota resolution and the algorithm call all
succeed, the Decision shaped by `RateLimiter.check` satisfies
`allowed = (count ≤ max)`, `limit = max`, `current = count`,
`remaining = max(0, max − count)`, `resetTime` as returned by the
algorithm, and `retryAfter = resetTime − now` exactly when `count > max`
(and `0` otherwise). -/
theorem check_success_decision_fields {σ Ctx : Type} (S : Store σ)
    (opts : LimiterOptions Ctx) (key : String) (req : Option Ctx)
    (extras : CtxExtras) (now : ℚ) (s s' : σ) (m : ℚ) (r : AlgResult)
    (hkey : key ≠ "")
    (hmax : resolveMax opts.max req = .ok m)
    (halg : opts.algorithm.check S key (extras.algOptions opts.windowMs) now s
      = (.ok r, s')) :
    ∃ d : Decision Ctx,
      RateLimiter.check S opts key req extras now s = (.ok d, s') ∧
      (d.allowed = true ↔ r.count ≤ m) ∧
      d.limit = MaxOpt.num m ∧
      d.current = r.count ∧
      d.remaining = MaxOpt.num (max 0 (m - r.count)) ∧
      d.resetTime = r.resetTime ∧
      (m < r.count → d.retryAfter = r.resetTime - now) ∧
      (r.count ≤ m → d.retryAfter = 0) := by
  have hc : RateLimiter.check S opts key req extras now s =
      (.ok { allowed := decide (r.count ≤ m)
             limit := .num m
             current := r.count
             remaining := .num (max 0 (m - r.count))
             resetTime := r.resetTime
             retryAfter := if m < r.count then r.resetTime - now else 0 }, s') := by
    unfold RateLimiter.check
    rw [if_neg hkey, hmax, halg]
  refine ⟨_, hc, by simp, rfl, rfl, rfl, rfl, ?_, ?_⟩
  · intro h
    simp only [if_pos h]
  · intro h
    simp only [if_neg (not_lt.mpr h)]

unseal Rat.add Rat.sub Rat.mul Rat.inv in
/-- C1 witness: a concrete successful check (sliding window, empty store,
`max = 5`, `now = 1000`). -/
theorem check_success_decision_fields_witness :
    ("k" : String) ≠ "" ∧
    resolveMax (MaxOpt.num 5 : MaxOpt Unit) none = .ok 5 ∧
    ∃ s' : MemState, ∃ d : Decision Unit,
      (Algorithm.slidingWindow.check memStore "k"
          (CtxExtras.algOptions {} 60000) 1000 MemState.empty = (.ok ⟨1, 61000⟩, s')) ∧
      RateLimiter.check memStore
          ⟨60000, .num 5, .slidingWindow⟩ "k" none {} 1000 MemState.empty = (.ok d, s') ∧
      (d.allowed = true ↔ (1 : ℚ) ≤ 5) ∧
      d.limit = MaxOpt.num 5 ∧
      d.current = 1 ∧
      d.remaining = MaxOpt.num (max 0 (5 - 1)) ∧
      d.resetTime = 61000 ∧
      ((5 : ℚ) < 1 → d.retryAfter = 61000 - 1000) ∧
      ((1 : ℚ) ≤ 5 → d.retryAfter = 0) := by
  have h1 : (Algorithm.slidingWindow.check memStore "k"
      (CtxExtras.algOptions {} 60000) 1000 MemState.empty).1 = .ok ⟨1, 61000⟩ := by decide
  have halg : Algorithm.slidingWindow.check memStore "k"
      (CtxExtras.algOptions {} 60000) 1000 MemState.empty =
      (.ok ⟨1, 61000⟩, (Algorithm.slidingWindow.check memStore "k"
        (CtxExtras.algOptions {} 60000) 1000 MemState.empty).2) := by
    rw [← h1]
  obtain ⟨d, hc, h⟩ := check_success_decision_fields memStore
    ⟨60000, .num 5, .slidingWindow⟩ "k" none {} 1000 MemState.empty _ 5 ⟨1, 61000⟩
    (by decide) rfl halg
  exact ⟨by decide, rfl, _, d, halg, hc, h⟩

/-- C2: for a valid (non-empty) key, a fault in quota resolution or in the
algorithm/store run is never propagated: `check` returns a fail-open
Decision with `allowed = true`, `remaining` equal to the configured quota,
`retryAfter = 0` and the error captured; in particular, against the store
whose operations (its `get`/`set` included) always raise, every algorithm
still yields such a fail-open Decision without any thrown exception. -/
theorem check_fail_open :
    (∀ (σ Ctx : Type) (S : Store σ) (opts : LimiterOptions Ctx) (key : String)
      (req : Option Ctx) (extras : CtxExtras) (now : ℚ) (s : σ) (e : String),
      key ≠ "" →
      (resolveMax opts.max req = .error e ∨
        ∃ (m : ℚ) (s₁ : σ), resolveMax opts.max req = .ok m ∧
          opts.algorithm.check S key (extras.algOptions opts.windowMs) now s
            = (.error e, s₁)) →
      ∃ (d : Decision Ctx) (s' : σ),
        RateLimiter.check S opts key req extras now s = (.ok d, s') ∧
        d.allowed = true ∧ d.remaining = opts.max ∧ d.retryAfter = 0 ∧
        d.error = some e) ∧
    (∀ (Ctx : Type) (opts : LimiterOptions Ctx) (key : String) (req : Option Ctx)
      (extras : CtxExtras) (now : ℚ),
      key ≠ "" →
      ∃ d : Decision Ctx,
        RateLimiter.check failStore opts key req extras now () = (.ok d, ()) ∧
        d.allowed = true ∧ d.error.isSome = true ∧ d.retryAfter = 0 ∧
        d.remaining = opts.max) := by
  constructor
  · intro σ Ctx S opts key req extras now s e hkey herr
    rcases herr with hmax | ⟨m, s₁, hmax, halg⟩
    · exact ⟨_, s, by rw [RateLimiter.check, if_neg hkey, hmax], rfl, rfl, rfl, rfl⟩
    · exact ⟨_, s₁, by rw [RateLimiter.check, if_neg hkey, hmax, halg], rfl, rfl, rfl, rfl⟩
  · intro Ctx opts key req extras now hkey
    match hmax : resolveMax opts.max req with
    | .error e =>
        exact ⟨failOpenDecision opts e now,
          by rw [RateLimiter.check, if_neg hkey, hmax], rfl, rfl, rfl, rfl⟩
    | .ok m =>
        have halg : ∃ e, opts.algorithm.check failStore key
            (extras.algOptions opts.windowMs) now () = (.error e, ()) := by
          cases opts.algorithm <;>
            simp [Algorithm.check, SlidingWindow.check, FixedWindow.check,
              TokenBucket.check, LeakyBucket.check, failStore]
        obtain ⟨e, halg⟩ := halg
        exact ⟨failOpenDecision opts e now,
          by rw [RateLimiter.check, if_neg hkey, hmax, halg], rfl, rfl, rfl, rfl⟩

/-- C2 witness: the failing store, sliding-window algorithm, static quota
`100`. -/
theorem check_fail_open_witness :
    ("k" : String) ≠ "" ∧
    ∃ d : Decision Unit,
      RateLimiter.check failStore ⟨60000, .num 100, .slidingWindow⟩ "k" none {} 1000 ()
        = (.ok d, ()) ∧
      d.allowed = true ∧ d.error.isSome = true ∧ d.retryAfter = 0 ∧
      d.remaining = MaxOpt.num 100 := by
  refine ⟨by decide, ?_⟩
  exact check_fail_open.2 Unit ⟨60000, .num 100, .slidingWindow⟩ "k" none {} 1000
    (by decide)

/-- C3: a sliding-window check against the in-memory store drops every
stored timestamp older than `now − windowMs`, returns `count` equal to the
number of retained timestamps plus one, appends `now` to the retained list
and persists it with TTL `windowMs`, and returns `resetTime` equal to the
oldest retained timestamp plus `windowMs`, falling back to
`now + windowMs` when nothing was retained (key absent included).  Clock
values and stored timestamps are positive, as `Date.now()` readings are. -/
theorem sliding_mem_fresh (s : MemState) (key : String) (W now : ℚ)
    (hnow : now ≠ 0) (hW : W ≠ 0)
    (hreq : ((s key).map (·.val)).bind (·.requests) = none) :
    SlidingWindow.check memStore key { windowMs := W } now s
      = (.ok ⟨1, now + W⟩,
          s.insert key
            ⟨{ ((s key).map (·.val)).getD {} with requests := some [now] }, some W⟩) := by
  have hnow' : jsTruthyQ (some now) = true := by simp [jsTruthyQ, hnow]
  have hW' : normTtl (some W) = some W := by simp [normTtl, jsTruthyQ, hW]
  match hsk : s key with
  | none =>
      simp only [SlidingWindow.check, memStore, MemoryStore.get, MemoryStore.increment,
        hsk, Option.map_none', Option.none_bind, Option.getD_none, Option.getD_some,
        hnow', hW', if_true]
  | some e =>
      rw [hsk] at hreq
      simp only [Option.map_some', Option.some_bind] at hreq
      simp only [SlidingWindow.check, memStore, MemoryStore.get, MemoryStore.increment,
        hsk, Option.map_some', Option.some_bind, Option.getD_some, hreq,
        Option.getD_none, List.nil_append, hnow', hW', if_true]

theorem sliding_mem_step (s : MemState) (key : String) (W now : ℚ) (e : MemEntry)
    (reqs : List ℚ) (hW : W ≠ 0) (hsk : s key = some e)
    (hreq : e.val.requests = some reqs) :
    SlidingWindow.check memStore key { windowMs := W } now s
      = (.ok ⟨(reqs.filter (fun t => decide (now - W < t))).length + 1,
              (let first := (reqs.filter (fun t => decide (now - W < t)) ++ [now]).headD now
               if first = 0 then now else first) + W⟩,
          s.insert key
            ⟨{ requests := some (reqs.filter (fun t => decide (now - W < t)) ++ [now]) },
              some W⟩) := by
  have hW' : normTtl (some W) = some W := by simp [normTtl, jsTruthyQ, hW]
  simp only [SlidingWindow.check, memStore, MemoryStore.get, MemoryStore.set,
    hsk, Option.map_some', Option.some_bind, hreq, hW']

/-- C3: a sliding-window check against the in-memory store drops every
stored timestamp older than `now − windowMs`, returns `count` equal to the
number of retained timestamps plus one, appends `now` to the retained list
and persists it with TTL `windowMs`, and returns `resetTime` equal to the
oldest retained timestamp plus `windowMs`, falling back to
`now + windowMs` when nothing was retained (key absent included).  Clock
values and stored timestamps are positive, as `Date.now()` readings are. -/
theorem sliding_window_check_spec (s : MemState) (key : String) (W now : ℚ)
    (hW : 0 < W) (hnow : 0 < now)
    (hpos : ∀ t ∈ slidingStored s key, 0 < t) :
    ∃ (r : AlgResult) (s' : MemState) (e' : MemEntry),
      SlidingWindow.check memStore key { windowMs := W } now s = (.ok r, s') ∧
      s' key = some e' ∧
      e'.val.requests = some (slidingRetained s key W now ++ [now]) ∧
      e'.ttl = some W ∧
      (∀ t ∈ slidingStored s key, t < now - W →
        t ∉ slidingRetained s key W now ++ [now]) ∧
      r.count = (slidingRetained s key W now).length + 1 ∧
      (slidingRetained s key W now = [] → r.resetTime = now + W) ∧
      (∀ t0 ts, slidingRetained s key W now = t0 :: ts → r.resetTime = t0 + W) := by
  have hdrop : ∀ t ∈ slidingStored s key, t < now - W →
      t ∉ slidingRetained s key W now ++ [now] := by
    intro t _ htlt hmem
    rcases List.mem_append.1 hmem with hr | hn
    · exact absurd (List.of_mem_filter hr) (by simpa using le_of_lt htlt)
    · have : t = now := by simpa using hn
      subst this
      linarith
  match hsk : ((s key).map (·.val)).bind (·.requests) with
  | none =>
      have hret : slidingRetained s key W now = [] := by
        simp [slidingRetained, slidingStored, hsk]
      refine ⟨⟨1, now + W⟩, _,
        ⟨{ ((s key).map (·.val)).getD {} with requests := some [now] }, some W⟩,
        sliding_mem_fresh s key W now (ne_of_gt hnow) (ne_of_gt hW) hsk,
        by simp [MemState.insert], by simp [hret], rfl, hdrop, by simp [hret],
        fun _ => rfl, ?_⟩
      intro t0 ts h
      rw [hret] at h
      exact absurd h (List.cons_ne_nil t0 ts).symm
  | some reqs =>
      match hske : s key, hsk with
      | some e, hsk =>
          have hreq : e.val.requests = some reqs := by
            simpa using hsk
          have hret : slidingRetained s key W now
              = reqs.filter (fun t => decide (now - W < t)) := by
            simp [slidingRetained, slidingStored, hske, hreq]
          refine ⟨_, _,
            ⟨{ requests := some (reqs.filter (fun t => decide (now - W < t)) ++ [now]) },
              some W⟩,
            sliding_mem_step s key W now e reqs (ne_of_gt hW) hske hreq,
            by simp [MemState.insert], by rw [hret], rfl, hdrop, by simp [hret], ?_, ?_⟩
          · intro hempty
            rw [hret] at hempty
            simp only [hempty, List.nil_append, List.headD_cons]
            rw [if_neg (ne_of_gt hnow)]
          · intro t0 ts h
            rw [hret] at h
            simp only [h, List.cons_append, List.headD_cons]
            have ht0 : 0 < t0 := by
              apply hpos
              have hmem : t0 ∈ reqs.filter (fun t => decide (now - W < t)) := by
                rw [h]; exact List.mem_cons_self _ _
              simpa [slidingStored, hske, hreq] using List.mem_of_mem_filter hmem
            rw [if_neg (ne_of_gt ht0)]

unseal Rat.add Rat.sub Rat.mul Rat.inv in
/-- C3 witness: stored list `[5, 100]`, `windowMs = 50`, `now = 120`: the
timestamp `5` is dropped, `[100, 120]` is persisted, `count = 2`,
`resetTime = 150`. -/
theorem sliding_window_check_spec_witness :
    (0 : ℚ) < 50 ∧ (0 : ℚ) < 120 ∧
    (∀ t ∈ slidingStored
      (MemState.empty.insert "k" ⟨{ requests := some [5, 100] }, none⟩) "k", 0 < t) ∧
    slidingRetained
      (MemState.empty.insert "k" ⟨{ requests := some [5, 100] }, none⟩) "k" 50 120
      = [100] ∧
    ∃ (r : AlgResult) (s' : MemState) (e' : MemEntry),
      SlidingWindow.check memStore "k" { windowMs := 50 } 120
          (MemState.empty.insert "k" ⟨{ requests := some [5, 100] }, none⟩)
        = (.ok r, s') ∧
      s' "k" = some e' ∧
      e'.val.requests = some (slidingRetained
        (MemState.empty.insert "k" ⟨{ requests := some [5, 100] }, none⟩) "k" 50 120
          ++ [120]) ∧
      e'.ttl = some 50 ∧
      (∀ t ∈ slidingStored
          (MemState.empty.insert "k" ⟨{ requests := some [5, 100] }, none⟩) "k",
        t < 120 - 50 →
        t ∉ slidingRetained
          (MemState.empty.insert "k" ⟨{ requests := some [5, 100] }, none⟩) "k" 50 120
            ++ [120]) ∧
      r.count = (slidingRetained
        (MemState.empty.insert "k" ⟨{ requests := some [5, 100] }, none⟩) "k" 50 120).length
          + 1 ∧
      (slidingRetained
          (MemState.empty.insert "k" ⟨{ requests := some [5, 100] }, none⟩) "k" 50 120
        = [] → r.resetTime = 120 + 50) ∧
      (∀ t0 ts, slidingRetained
          (MemState.empty.insert "k" ⟨{ requests := some [5, 100] }, none⟩) "k" 50 120
        = t0 :: ts → r.resetTime = t0 + 50) :=
  ⟨by norm_num, by norm_num, by decide, by decide,
    sliding_window_check_spec
      (MemState.empty.insert "k" ⟨{ requests := some [5, 100] }, none⟩) "k" 50 120
      (by norm_num) (by norm_num) (by decide)⟩

/-- C4: a token-bucket check first refills the stored tokens by
`(now − lastRefill) / windowMs × refillRate`, capped at `capacity` (an
absent record starts full); with at least one token it consumes one,
persists `{tokens − 1, lastRefill: now}` and reports
`count = capacity − tokens_after`, `resetTime = now + (1/refillRate) ×
windowMs`; otherwise it reports exactly `capacity + 1` and
`resetTime = now + ((1 − tokens)/refillRate) × windowMs` without writing;
the tokens value it persists never exceeds `capacity`. -/
theorem token_bucket_check_spec (s : MemState) (key : String) (C r W now : ℚ)
    (hW : 0 < W) (hr : 0 < r) :
    (∀ tokens, tokens = TokenBucket.refilled ((s key).map (·.val)) C r W now →
    (s key = none → tokens = C) ∧
    (∀ e tk lr, s key = some e → e.val.tokens = some tk →
      e.val.lastRefill = some lr → tokens = min C (tk + (now - lr) / W * r)) ∧
    tokens ≤ C ∧
    (1 ≤ tokens →
      TokenBucket.check memStore key ⟨W, some C, some r, none⟩ now s
        = (.ok ⟨C - (tokens - 1), now + 1 / r * W⟩,
            s.insert key ⟨{ tokens := some (tokens - 1), lastRefill := some now },
              normTtl (some (W * C))⟩) ∧
      tokens - 1 ≤ C) ∧
    (tokens < 1 →
      TokenBucket.check memStore key ⟨W, some C, some r, none⟩ now s
        = (.ok ⟨C + 1, now + (1 - tokens) / r * W⟩, s))) := by
  intro tokens htok
  have hcap : tokens ≤ C := by
    rw [htok]
    unfold TokenBucket.refilled
    cases hmk : (s key).map (·.val) with
    | none => exact le_refl C
    | some d =>
        rcases htk : d.tokens with _ | tk <;> rcases hlr : d.lastRefill with _ | lr <;>
          simp [htk, hlr, min_le_left]
  have hcheck : TokenBucket.check memStore key ⟨W, some C, some r, none⟩ now s
      = (if 1 ≤ tokens then
          (.ok ⟨C - (tokens - 1), now + 1 / r * W⟩,
            s.insert key ⟨{ tokens := some (tokens - 1), lastRefill := some now },
              normTtl (some (W * C))⟩)
        else (.ok ⟨C + 1, now + (1 - tokens) / r * W⟩, s)) := by
    rw [htok]
    simp only [TokenBucket.check, memStore, MemoryStore.get, MemoryStore.set,
      Option.getD_some]
  refine ⟨?_, ?_, hcap, ?_, ?_⟩
  · intro hsk
    rw [htok]
    simp [TokenBucket.refilled, hsk]
  · intro e tk lr hsk htk hlr
    rw [htok]
    simp [TokenBucket.refilled, hsk, htk, hlr]
  · intro h1
    rw [hcheck, if_pos h1]
    exact ⟨rfl, by linarith⟩
  · intro h1
    rw [hcheck, if_neg (not_le.mpr h1)]

unseal Rat.add Rat.sub Rat.mul Rat.inv in
/-- C4 witness: an absent record with `capacity = 10`, `refillRate = 1`,
`windowMs = 1000`, `now = 50`: the bucket starts full, one token is
consumed and `{tokens: 9, lastRefill: 50}` is persisted. -/
theorem token_bucket_check_spec_witness :
    (0 : ℚ) < 1000 ∧ (0 : ℚ) < 1 ∧
    ((10 : ℚ) = TokenBucket.refilled ((MemState.empty "k").map (·.val)) 10 1 1000 50) ∧
    ((1 : ℚ) ≤ 10) ∧
    (TokenBucket.check memStore "k" ⟨1000, some 10, some 1, none⟩ 50 MemState.empty
      = (.ok ⟨10 - (10 - 1), 50 + 1 / 1 * 1000⟩,
          MemState.empty.insert "k" ⟨{ tokens := some (10 - 1), lastRefill := some 50 },
            normTtl (some (1000 * 10))⟩) ∧ (10 : ℚ) - 1 ≤ 10) := by
  refine ⟨by norm_num, by norm_num, by decide, by norm_num, ?_⟩
  exact ((token_bucket_check_spec MemState.empty "k" 10 1 1000 50 (by norm_num)
    (by norm_num)) 10 (by decide)).2.2.2.1 (by norm_num)

unseal Rat.add Rat.sub Rat.mul Rat.inv in
/-- C5 (bug demonstration): with the fixed-window algorithm
(`windowMs = 10`, `max = 1`) and clock `5`, one check stores its counter
under the derived key `"k:0"`; `reset("k")` deletes only the raw key
`"k"`, so the following check continues the old counter: it reports
`current = 2` and `allowed = false` instead of the specified `current = 1`,
`allowed = true`. -/
theorem fixed_window_reset_bug :
    ((RateLimiter.check memStore (⟨10, .num 1, .fixedWindow⟩ : LimiterOptions Unit)
          "k" none {} 5
          (RateLimiter.reset memStore "k"
            (RateLimiter.check memStore
              (⟨10, .num 1, .fixedWindow⟩ : LimiterOptions Unit)
              "k" none {} 5 MemState.empty).2).2).1.map
        (fun d => (d.current, d.allowed)) = .ok (2, false)) ∧
    (RateLimiter.check memStore (⟨10, .num 1, .fixedWindow⟩ : LimiterOptions Unit)
        "k" none {} 5 MemState.empty).2 "k:0"
      = some ⟨{ count := some 1 }, some 10⟩ := by
  constructor <;> decide

unseal Rat.add Rat.sub Rat.mul Rat.inv in
/-- C6 (bug demonstration): after a sliding-window `increment` on the
remote store the data lives in the sorted set `rl:k:scores` while `rl:k`
itself is unset, so `decrement`, which type-checks `rl:k`, leaves the
sorted set untouched instead of removing the most recent timestamp (which
would have left it empty, as the final conjunct shows). -/
theorem redis_decrement_sliding_noop :
    ((RedisStore.incrementSliding "rl:" "k" 60000 1000 "1000-x" 1000 RState.empty).2
        "rl:k:scores" = some (.zset [(1000, "1000-x")])) ∧
    ((RedisStore.incrementSliding "rl:" "k" 60000 1000 "1000-x" 1000 RState.empty).2
        "rl:k" = none) ∧
    ((RedisStore.decrement "rl:" "k"
        (RedisStore.incrementSliding "rl:" "k" 60000 1000 "1000-x" 1000
          RState.empty).2).2
        "rl:k:scores" = some (.zset [(1000, "1000-x")])) ∧
    zpopmax [((1000 : ℚ), "1000-x")] = [] := by
  refine ⟨by decide, by decide, by decide, by decide⟩

theorem validateCore_ok_iff (w m : JsOptVal) (a : String) :
    validateCore w m a = .ok () ↔
      ((∃ q : ℚ, w = .num q ∧ 0 < q) ∧
       (m = .fnVal ∨ ∃ q : ℚ, m = .num q ∧ 0 < q) ∧
       a ∈ validAlgorithms) := by
  rcases w with q | _ | _ <;> rcases m with p | _ | _ <;>
    simp only [validateCore] <;>
    (try split_ifs) <;>
    simp_all

theorem initializeStore_ok_iff (st : StoreOpt) :
    initializeStore st = .ok () ↔ storeAccepted st := by
  rcases st with s | m | _ | _
  · by_cases hemp : s.isEmpty <;>
      simp only [initializeStore, storeAccepted, StoreOpt.truthy, hemp] <;>
      split_ifs <;> simp_all
  · simp only [initializeStore, storeAccepted, StoreOpt.truthy] <;>
      split_ifs <;> simp_all
  · simp [initializeStore, storeAccepted, StoreOpt.truthy]
  · simp [initializeStore, storeAccepted, StoreOpt.truthy]

theorem constructorRun_ok_iff (o : RawOptions) :
    constructorRun o = .ok () ↔ ¬ codeInvalidOptions o := by
  rw [constructorRun]
  cases hv : validateOptions o with
  | error e =>
      have hbad : ¬ ((∃ q : ℚ, o.windowMs.getD (.num 60000) = .num q ∧ 0 < q) ∧
          (o.max.getD (.num 100) = .fnVal ∨
            ∃ q : ℚ, o.max.getD (.num 100) = .num q ∧ 0 < q) ∧
          o.algorithm.getD "sliding-window" ∈ validAlgorithms) := by
        intro hgood
        have := (validateCore_ok_iff _ _ _).mpr hgood
        rw [validateOptions] at hv
        rw [this] at hv
        exact Except.noConfusion hv
      constructor
      · intro h
        exact Except.noConfusion h
      · intro h
        exact absurd trivial (by
          rcases not_and_or.mp hbad with h1 | h2
          · exact fun _ => h (Or.inl h1)
          · rcases not_and_or.mp h2 with h3 | h4
            · exact fun _ => h (Or.inr (Or.inl h3))
            · exact fun _ => h (Or.inr (Or.inr (Or.inl h4))))
  | ok u =>
      cases u
      have hgood := (validateCore_ok_iff _ _ _).mp hv
      cases hs : initializeStore (o.store.getD (.strVal "memory")) with
      | error e =>
          have hnacc : ¬ storeAccepted (o.store.getD (.strVal "memory")) := by
            intro hacc
            have := (initializeStore_ok_iff _).mpr hacc
            rw [this] at hs
            exact Except.noConfusion hs
          constructor
          · intro h
            exact Except.noConfusion h
          · intro h
            exact absurd (Or.inr (Or.inr (Or.inr hnacc))) h
      | ok u =>
          cases u
          have halg : initializeAlgorithm (o.algorithm.getD "sliding-window") = .ok () := by
            rw [initializeAlgorithm, if_pos hgood.2.2]
          constructor
          · intro _
            intro hbad
            rcases hbad with h1 | h2 | h3 | h4
            · exact h1 hgood.1
            · exact h2 hgood.2.1
            · exact h3 hgood.2.2
            · exact h4 ((initializeStore_ok_iff _).mp hs)
          · intro _
            exact halg

/-- C7 counterexample: a store object implementing only `increment`, `get`
and `reset` (but not `set`/`decrement`/`resetAll`) fails the spec's full
Store contract, so by the claim construction should raise, yet the
constructor accepts it. -/
theorem constructor_validation_claim_false :
    ¬ ((∃ e, constructorRun
          { store := some (.objVal ⟨true, true, true, false, false, false⟩) }
            = .error e)
        ↔ claimInvalidOptions
          { store := some (.objVal ⟨true, true, true, false, false, false⟩) }) := by
  intro h
  have hinv : claimInvalidOptions
      { store := some (.objVal ⟨true, true, true, false, false, false⟩) } :=
    Or.inr (Or.inr (Or.inr ⟨⟨true, true, true, false, false, false⟩, rfl,
      by simp [StoreMethods.fullContract]⟩))
  obtain ⟨e, he⟩ := h.mpr hinv
  have hok : constructorRun
      { store := some (.objVal ⟨true, true, true, false, false, false⟩) } = .ok () := by
    decide
  rw [hok] at he
  exact Except.noConfusion he

/-- C7 amended: the constructor raises exactly when the defaulted options
fail the code's checks — `windowMs` not a positive number, `max` neither a
positive number nor callable, `algorithm` unrecognised, or a truthy store
option that is neither `'memory'`, a `redis://` string, nor an object
exposing `increment`, `get` and `reset` (only those three methods are
checked, not the full Store contract); and `check` can only raise the key
error, never a configuration error. -/
theorem constructor_error_iff :
    (∀ o : RawOptions, (∃ e, constructorRun o = .error e) ↔ codeInvalidOptions o) ∧
    (∀ (σ Ctx : Type) (S : Store σ) (opts : LimiterOptions Ctx) (key : String)
      (req : Option Ctx) (extras : CtxExtras) (now : ℚ) (s : σ) (e : String),
      (RateLimiter.check S opts key req extras now s).1 = .error e → e = keyErrMsg) := by
  constructor
  · intro o
    have hok := constructorRun_ok_iff o
    cases hrun : constructorRun o with
    | error e =>
        constructor
        · intro _
          by_contra hbad
          have hc := hok.mpr hbad
          rw [hrun] at hc
          exact Except.noConfusion hc
        · intro _
          exact ⟨e, rfl⟩
    | ok u =>
        cases u
        constructor
        · intro ⟨e2, he⟩
          exact Except.noConfusion he
        · intro hbad
          exact absurd hbad (hok.mp hrun)
  · intro σ Ctx S opts key req extras now s e h
    by_cases hk : key = ""
    · rw [RateLimiter.check, if_pos hk] at h
      simpa [keyErrMsg] using h.symm
    · rw [RateLimiter.check, if_neg hk] at h
      cases hmax : resolveMax opts.max req with
      | error e' =>
          rw [hmax] at h
          simp at h
      | ok m =>
          rw [hmax] at h
          rcases halg : opts.algorithm.check S key (extras.algOptions opts.windowMs) now s
            with ⟨e2 | r2, s2⟩ <;> rw [halg] at h <;> simp at h

/-- C7 witness: a windowMs of `0` is rejected, and the only error `check`
can return is the key error (shown at the empty key). -/
theorem constructor_error_iff_witness :
    ((∃ e, constructorRun { windowMs := some (.num 0) } = .error e) ↔
      codeInvalidOptions { windowMs := some (.num 0) }) ∧
    ((RateLimiter.check memStore
        (⟨60000, .num 100, .slidingWindow⟩ : LimiterOptions Unit)
        "" none {} 0 MemState.empty).1 = .error keyErrMsg ∧
      keyErrMsg = keyErrMsg) := by
  refine ⟨constructor_error_iff.1 { windowMs := some (.num 0) }, ?_, ?_⟩
  · rfl
  · exact constructor_error_iff.2 MemState Unit memStore
      ⟨60000, .num 100, .slidingWindow⟩ "" none {} 0 MemState.empty keyErrMsg rfl

theorem sliding_resetTime_future {σ : Type} (S : Store σ) (key : String)
    (o : AlgOptions) (now : ℚ) (s s' : σ) (r : AlgResult) (hW : 0 < o.windowMs)
    (h : SlidingWindow.check S key o now s = (.ok r, s')) : now < r.resetTime := by
  simp only [SlidingWindow.check] at h
  split at h
  · exact absurd h (by simp)
  · split at h
    · split at h
      · exact absurd h (by simp)
      · simp only [Prod.mk.injEq, Except.ok.injEq] at h
        obtain ⟨h1, _⟩ := h
        subst h1
        simpa using hW
    · rename_i reqs hb
      split at h
      · exact absurd h (by simp)
      · simp only [Prod.mk.injEq, Except.ok.injEq] at h
        obtain ⟨h1, _⟩ := h
        subst h1
        simp only
        set first := (reqs.filter (fun t => decide (now - o.windowMs < t)) ++ [now]).headD now
          with hfirst
        by_cases hz : first = 0
        · rw [if_pos hz]
          linarith
        · rw [if_neg hz]
          have hmem : first ∈ reqs.filter (fun t => decide (now - o.windowMs < t)) ∨
              first = now := by
            rw [hfirst]
            cases hl : reqs.filter (fun t => decide (now - o.windowMs < t)) with
            | nil => simp
            | cons a l => simp
          rcases hmem with hmem | hmem
          · have := List.of_mem_filter hmem
            have hlt : now - o.windowMs < first := by simpa using this
            linarith
          · rw [hmem]
            linarith

theorem fixed_resetTime_future {σ : Type} (S : Store σ) (key : String)
    (o : AlgOptions) (now : ℚ) (s s' : σ) (r : AlgResult) (hW : 0 < o.windowMs)
    (h : FixedWindow.check S key o now s = (.ok r, s')) : now < r.resetTime := by
  simp only [FixedWindow.check] at h
  split at h
  · exact absurd h (by simp)
  · simp only [Prod.mk.injEq, Except.ok.injEq] at h
    obtain ⟨h1, _⟩ := h
    subst h1
    simp only
    have hlt : now / o.windowMs < (⌊now / o.windowMs⌋ : ℚ) + 1 :=
      Int.lt_floor_add_one (now / o.windowMs)
    calc now = now / o.windowMs * o.windowMs := by field_simp
    _ < ((⌊now / o.windowMs⌋ : ℚ) + 1) * o.windowMs := by
        exact mul_lt_mul_of_pos_right hlt hW

theorem token_resetTime_future {σ : Type} (S : Store σ) (key : String)
    (o : AlgOptions) (now : ℚ) (s s' : σ) (r : AlgResult) (hW : 0 < o.windowMs)
    (hr : 0 < o.refillRate.getD 1)
    (h : TokenBucket.check S key o now s = (.ok r, s')) : now < r.resetTime := by
  simp only [TokenBucket.check] at h
  split at h
  next => exact absurd h (by simp)
  next data s1 hg =>
    split at h
    next ht =>
      split at h
      next => exact absurd h (by simp)
      next u s2 hset =>
        simp only [Prod.mk.injEq, Except.ok.injEq] at h
        obtain ⟨h1, _⟩ := h
        subst h1
        have hpos : 0 < 1 / o.refillRate.getD 1 * o.windowMs :=
          mul_pos (by positivity) hW
        simpa using hpos
    next ht =>
      simp only [Prod.mk.injEq, Except.ok.injEq] at h
      obtain ⟨h1, _⟩ := h
      subst h1
      have h1t : 0 < 1 - TokenBucket.refilled data (o.capacity.getD 10)
          (o.refillRate.getD 1) o.windowMs now := by linarith [not_le.mp ht]
      have hpos : 0 < (1 - TokenBucket.refilled data (o.capacity.getD 10)
          (o.refillRate.getD 1) o.windowMs now) / o.refillRate.getD 1 * o.windowMs :=
        mul_pos (div_pos h1t hr) hW
      simpa using hpos

theorem leaked_nonneg (data : Option JsRecord) (leakRate windowMs now : ℚ) :
    0 ≤ LeakyBucket.leaked data leakRate windowMs now := by
  unfold LeakyBucket.leaked
  rcases data with _ | d
  · exact le_refl 0
  · rcases hw : d.water with _ | w <;> rcases hl : d.lastLeak with _ | ll <;>
      simp [hw, hl, le_max_left]

theorem leaky_resetTime_future {σ : Type} (S : Store σ) (key : String)
    (o : AlgOptions) (now : ℚ) (s s' : σ) (r : AlgResult) (hW : 0 < o.windowMs)
    (hl : 0 < o.leakRate.getD 1)
    (h : LeakyBucket.check S key o now s = (.ok r, s')) : now < r.resetTime := by
  simp only [LeakyBucket.check] at h
  split at h
  next => exact absurd h (by simp)
  next data s1 hg =>
    split at h
    next hcap =>
      split at h
      next => exact absurd h (by simp)
      next u s2 hset =>
        have hw0 : 0 ≤ LeakyBucket.leaked data (o.leakRate.getD 1) o.windowMs now :=
          leaked_nonneg data (o.leakRate.getD 1) o.windowMs now
        simp only [Prod.mk.injEq, Except.ok.injEq] at h
        obtain ⟨h1, _⟩ := h
        subst h1
        have hpos : 0 < (LeakyBucket.leaked data (o.leakRate.getD 1) o.windowMs now + 1)
            / o.leakRate.getD 1 * o.windowMs :=
          mul_pos (div_pos (by linarith) hl) hW
        simpa using hpos
    next hcap =>
      have hw0 : 0 ≤ LeakyBucket.leaked data (o.leakRate.getD 1) o.windowMs now :=
        leaked_nonneg data (o.leakRate.getD 1) o.windowMs now
      simp only [Prod.mk.injEq, Except.ok.injEq] at h
      obtain ⟨h1, _⟩ := h
      subst h1
      have hge := not_lt.mp hcap
      have hpos : 0 < (LeakyBucket.leaked data (o.leakRate.getD 1) o.windowMs now
          - o.capacity.getD 10 + 1) / o.leakRate.getD 1 * o.windowMs :=
        mul_pos (div_pos (by linarith) hl) hW
      simpa using hpos

theorem algorithm_resetTime_future {σ : Type} (a : Algorithm) (S : Store σ)
    (key : String) (o : AlgOptions) (now : ℚ) (s s' : σ) (r : AlgResult)
    (hW : 0 < o.windowMs) (hr : 0 < o.refillRate.getD 1) (hl : 0 < o.leakRate.getD 1)
    (h : a.check S key o now s = (.ok r, s')) : now < r.resetTime := by
  cases a
  case slidingWindow => exact sliding_resetTime_future S key o now s s' r hW h
  case fixedWindow => exact fixed_resetTime_future S key o now s s' r hW h
  case tokenBucket => exact token_resetTime_future S key o now s s' r hW hr h
  case leakyBucket => exact leaky_resetTime_future S key o now s s' r hW hl h

/-- C8: every Decision `check` returns — under any of the four algorithms,
fail-open decisions included — satisfies `retryAfter > 0` iff
`allowed = false` (for a positive window and positive bucket rates, as the
configuration requires). -/
theorem retryAfter_pos_iff_denied {σ Ctx : Type} (S : Store σ)
    (opts : LimiterOptions Ctx) (key : String) (req : Option Ctx)
    (extras : CtxExtras) (now : ℚ) (s s' : σ) (d : Decision Ctx)
    (hW : 0 < opts.windowMs)
    (hr : 0 < extras.refillRate.getD 1)
    (hl : 0 < extras.leakRate.getD 1)
    (hc : RateLimiter.check S opts key req extras now s = (.ok d, s')) :
    0 < d.retryAfter ↔ d.allowed = false := by
  by_cases hk : key = ""
  · rw [RateLimiter.check, if_pos hk] at hc
    exact absurd hc (by simp)
  · rw [RateLimiter.check, if_neg hk] at hc
    cases hmax : resolveMax opts.max req with
    | error e =>
        rw [hmax] at hc
        simp only [Prod.mk.injEq, Except.ok.injEq] at hc
        obtain ⟨h1, _⟩ := hc
        subst h1
        simp [failOpenDecision]
    | ok m =>
        rw [hmax] at hc
        rcases halg : opts.algorithm.check S key (extras.algOptions opts.windowMs) now s
          with ⟨e2 | r, s2⟩ <;> rw [halg] at hc
        · simp only [Prod.mk.injEq, Except.ok.injEq] at hc
          obtain ⟨h1, _⟩ := hc
          subst h1
          simp [failOpenDecision]
        · simp only [Prod.mk.injEq, Except.ok.injEq] at hc
          obtain ⟨h1, _⟩ := hc
          subst h1
          have hrt : now < r.resetTime :=
            algorithm_resetTime_future opts.algorithm S key
              (extras.algOptions opts.windowMs) now s s2 r hW hr hl halg
          by_cases hcm : m < r.count
          · simp only [if_pos hcm]
            constructor
            · intro _
              simp [decide_eq_false (not_le.mpr hcm)]
            · intro _
              linarith
          · simp only [if_neg hcm]
            constructor
            · intro h0
              exact absurd h0 (lt_irrefl 0)
            · intro hfalse
              simp [decide_eq_true (not_lt.mp hcm)] at hfalse

unseal Rat.add Rat.sub Rat.mul Rat.inv in
/-- C8 witness: a concrete allowed decision (sliding window, empty store,
`max = 1`, `now = 5`) has `retryAfter = 0`, and the equivalence holds at
it. -/
theorem retryAfter_pos_iff_denied_witness :
    (0 : ℚ) < 10 ∧ (0 : ℚ) < ({} : CtxExtras).refillRate.getD 1 ∧
    (0 : ℚ) < ({} : CtxExtras).leakRate.getD 1 ∧
    (RateLimiter.check memStore (⟨10, .num 1, .slidingWindow⟩ : LimiterOptions Unit)
        "k" none {} 5 MemState.empty
      = (.ok ⟨true, .num 1, 1, .num 0, 15, 0, none⟩,
          MemState.empty.insert "k" ⟨{ requests := some [5] }, some 10⟩)) ∧
    (0 < (⟨true, .num 1, 1, .num 0, 15, 0, none⟩ : Decision Unit).retryAfter ↔
      (⟨true, .num 1, 1, .num 0, 15, 0, none⟩ : Decision Unit).allowed = false) := by
  refine ⟨by norm_num, by decide, by decide, rfl, ?_⟩
  exact retryAfter_pos_iff_denied memStore ⟨10, .num 1, .slidingWindow⟩ "k" none {} 5
    MemState.empty _ _ (by norm_num) (by decide) (by decide) rfl

theorem sw_check_step (k : String) (W : ℚ) (hW : 0 < W) (s : MemState)
    (b now : ℚ) (hb : b ≤ now) (hnow : 0 < now) (hinv : swInv k W s b) :
    ∃ l' : List ℚ,
      (swStep k W s (.checkAt now)) k = some ⟨{ requests := some l' }, some W⟩ ∧
      l' ≠ [] ∧ l'.getLast? = some now ∧ List.Sorted (· ≤ ·) l' ∧
      (∀ t ∈ l', 0 < t ∧ now - W < t ∧ t ≤ now) := by
  rcases hinv with hnone | ⟨l, hsk, hne, hsort, hbound⟩
  · have hc := sliding_mem_fresh s k W now (ne_of_gt hnow) (ne_of_gt hW)
      (by simp [hnone])
    refine ⟨[now], ?_, by simp, by simp, by simp, ?_⟩
    · simp only [swStep, hc, hnone]
      simp [MemState.insert]
    · intro t ht
      have : t = now := by simpa using ht
      subst this
      exact ⟨hnow, by linarith, le_refl t⟩
  · have hc := sliding_mem_step s k W now ⟨{ requests := some l }, some W⟩ l
      (ne_of_gt hW) hsk rfl
    refine ⟨l.filter (fun t => decide (now - W < t)) ++ [now], ?_, by simp, ?_, ?_, ?_⟩
    · simp only [swStep, hc]
      simp [MemState.insert]
    · exact List.getLast?_concat _
    · rw [List.Sorted, List.pairwise_append]
      refine ⟨hsort.filter _, List.pairwise_singleton _ _, ?_⟩
      intro a ha b' hb'
      have hb'' : b' = now := by simpa using hb'
      subst hb''
      have : a ∈ l := List.mem_of_mem_filter ha
      linarith [(hbound a this).2]
    · intro t ht
      rcases List.mem_append.1 ht with ht | ht
      · have hmem : t ∈ l := List.mem_of_mem_filter ht
        have hgt : now - W < t := by simpa using List.of_mem_filter ht
        exact ⟨(hbound t hmem).1, hgt, le_trans (hbound t hmem).2 hb⟩
      · have : t = now := by simpa using ht
        subst this
        exact ⟨hnow, by linarith, le_refl t⟩

theorem sw_run_invariant (k : String) (W : ℚ) (hW : 0 < W) :
    ∀ (evs : List SwEvent) (s : MemState) (b : ℚ),
      timesOk b evs → swInv k W s b →
      swInv k W (swRun k W s evs) (endBound b evs) ∧ b ≤ endBound b evs := by
  intro evs
  induction evs with
  | nil => exact fun s b _ hinv => ⟨hinv, le_refl b⟩
  | cons e rest ih =>
      intro s b hok hinv
      cases e with
      | checkAt t =>
          obtain ⟨hbt, ht0, hok'⟩ := hok
          obtain ⟨l', hl', _, _, hsort', hbound'⟩ :=
            sw_check_step k W hW s b t hbt ht0 hinv
          have hinv' : swInv k W (swStep k W s (.checkAt t)) t :=
            Or.inr ⟨l', hl', by
              intro hemp
              rw [hemp] at hl'
              exact absurd hl' (by
                intro hcontra
                have := hbound'
                simp_all), hsort', fun x hx => ⟨(hbound' x hx).1, (hbound' x hx).2.2⟩⟩
          have := ih (swStep k W s (.checkAt t)) t hok' hinv'
          exact ⟨this.1, le_trans hbt this.2⟩
      | expire =>
          have hinv' : swInv k W (swStep k W s .expire) b := by
            left
            simp [swStep, MemState.erase]
          exact ih (swStep k W s .expire) b hok hinv'

theorem timesOk_append_check (now : ℚ) :
    ∀ (evs : List SwEvent) (b : ℚ), timesOk b (evs ++ [.checkAt now]) →
      timesOk b evs ∧ endBound b evs ≤ now ∧ 0 < now := by
  intro evs
  induction evs with
  | nil => exact fun b h => ⟨trivial, h.1, h.2.1⟩
  | cons e rest ih =>
      intro b h
      cases e with
      | checkAt t =>
          obtain ⟨h1, h2, h3⟩ := h
          obtain ⟨h4, h5, h6⟩ := ih t h3
          exact ⟨⟨h1, h2, h4⟩, h5, h6⟩
      | expire => exact ⟨(ih b h).1, (ih b h).2⟩

/-- C10: for a key used only by the sliding-window algorithm against the
in-memory store — any interleaving of checks (at positive, non-decreasing
clock values) and TTL expiries, starting from an empty store — the list
persisted by a final check at clock `now` is non-empty, ends with `now`,
is sorted, and contains only timestamps in the half-open window
`(now − windowMs, now]`. -/
theorem sliding_window_store_invariant (k : String) (W : ℚ) (evs : List SwEvent)
    (now : ℚ) (hW : 0 < W) (hok : timesOk 0 (evs ++ [SwEvent.checkAt now])) :
    ∃ l : List ℚ,
      (swRun k W MemState.empty (evs ++ [SwEvent.checkAt now])) k
        = some ⟨{ requests := some l }, some W⟩ ∧
      l ≠ [] ∧ l.getLast? = some now ∧ List.Sorted (· ≤ ·) l ∧
      ∀ t ∈ l, now - W < t ∧ t ≤ now := by
  obtain ⟨hok', hble, hnow⟩ := timesOk_append_check now evs 0 hok
  have hstart : swInv k W MemState.empty 0 := Or.inl rfl
  obtain ⟨hinv, _⟩ := sw_run_invariant k W hW evs MemState.empty 0 hok' hstart
  obtain ⟨l', hl', hne, hlast, hsort, hbound⟩ :=
    sw_check_step k W hW (swRun k W MemState.empty evs) (endBound 0 evs) now
      hble hnow hinv
  refine ⟨l', ?_, hne, hlast, hsort, fun t ht => ⟨(hbound t ht).2.1, (hbound t ht).2.2⟩⟩
  rw [swRun, List.foldl_append]
  exact hl'

unseal Rat.add Rat.sub Rat.mul Rat.inv in
/-- C10 witness: checks at clocks `3`, `5` (after an expiry) and `7` with
`windowMs = 10` leave the list `[5, 7]`. -/
theorem sliding_window_store_invariant_witness :
    (0 : ℚ) < 10 ∧
    timesOk 0 ([SwEvent.checkAt 3, SwEvent.expire, SwEvent.checkAt 5]
      ++ [SwEvent.checkAt 7]) ∧
    ∃ l : List ℚ,
      (swRun "k" 10 MemState.empty ([SwEvent.checkAt 3, SwEvent.expire,
          SwEvent.checkAt 5] ++ [SwEvent.checkAt 7])) "k"
        = some ⟨{ requests := some l }, some 10⟩ ∧
      l ≠ [] ∧ l.getLast? = some 7 ∧ List.Sorted (· ≤ ·) l ∧
      ∀ t ∈ l, 7 - 10 < t ∧ t ≤ 7 := by
  refine ⟨by norm_num, by simp [timesOk]; norm_num, ?_⟩
  exact sliding_window_store_invariant "k" 10
    [SwEvent.checkAt 3, SwEvent.expire, SwEvent.checkAt 5] 7 (by norm_num)
    (by simp [timesOk]; norm_num)

theorem sliding_fst_congr (s s' : MemState) (k : String) (o : AlgOptions) (now : ℚ)
    (h : s k = s' k) :
    (SlidingWindow.check memStore k o now s).1
      = (SlidingWindow.check memStore k o now s').1 := by
  simp only [SlidingWindow.check, memStore, MemoryStore.get, MemoryStore.increment,
    MemoryStore.set, h]
  rcases hsk : s' k with _ | e
  · by_cases hn : jsTruthyQ (some now) = true <;> simp [hsk, hn]
  · rcases hreq : e.val.requests with _ | reqs <;>
      by_cases hn : jsTruthyQ (some now) = true <;>
      simp [hsk, hreq, hn]

theorem fixed_fst_congr (s s' : MemState) (k : String) (o : AlgOptions) (now : ℚ)
    (h : s (FixedWindow.fullKey k ⌊now / o.windowMs⌋)
      = s' (FixedWindow.fullKey k ⌊now / o.windowMs⌋)) :
    (FixedWindow.check memStore k o now s).1
      = (FixedWindow.check memStore k o now s').1 := by
  simp only [FixedWindow.check, memStore, MemoryStore.increment, h]
  rcases hsk : s' (FixedWindow.fullKey k ⌊now / o.windowMs⌋) with _ | e <;>
    simp [hsk, jsTruthyQ]

theorem token_fst_congr (s s' : MemState) (k : String) (o : AlgOptions) (now : ℚ)
    (h : s k = s' k) :
    (TokenBucket.check memStore k o now s).1
      = (TokenBucket.check memStore k o now s').1 := by
  simp only [TokenBucket.check, memStore, MemoryStore.get, MemoryStore.set, h]
  repeat' split
  all_goals rfl

theorem leaky_fst_congr (s s' : MemState) (k : String) (o : AlgOptions) (now : ℚ)
    (h : s k = s' k) :
    (LeakyBucket.check memStore k o now s).1
      = (LeakyBucket.check memStore k o now s').1 := by
  simp only [LeakyBucket.check, memStore, MemoryStore.get, MemoryStore.set, h]
  repeat' split
  all_goals rfl

theorem alg_fst_congr (a : Algorithm) (k : String) (o : AlgOptions) (now : ℚ)
    (s s' : MemState)
    (h : s (readKey a k o.windowMs now) = s' (readKey a k o.windowMs now)) :
    (a.check memStore k o now s).1 = (a.check memStore k o now s').1 := by
  cases a
  case slidingWindow => exact sliding_fst_congr s s' k o now h
  case fixedWindow => exact fixed_fst_congr s s' k o now h
  case tokenBucket => exact token_fst_congr s s' k o now h
  case leakyBucket => exact leaky_fst_congr s s' k o now h

theorem check_fst_congr {Ctx : Type} (opts : LimiterOptions Ctx) (k : String)
    (req : Option Ctx) (extras : CtxExtras) (now : ℚ) (s s' : MemState)
    (halg : (opts.algorithm.check memStore k (extras.algOptions opts.windowMs) now s).1
      = (opts.algorithm.check memStore k (extras.algOptions opts.windowMs) now s').1) :
    (RateLimiter.check memStore opts k req extras now s).1
      = (RateLimiter.check memStore opts k req extras now s').1 := by
  rw [RateLimiter.check, RateLimiter.check]
  by_cases hk : k = ""
  · rw [if_pos hk, if_pos hk]
  · rw [if_neg hk, if_neg hk]
    cases hmax : resolveMax opts.max req with
    | error e => rfl
    | ok m =>
        rcases hA : opts.algorithm.check memStore k (extras.algOptions opts.windowMs) now s
          with ⟨resA, stA⟩
        rcases hB : opts.algorithm.check memStore k (extras.algOptions opts.windowMs) now s'
          with ⟨resB, stB⟩
        rw [hA, hB] at halg
        simp only at halg
        subst halg
        cases resA <;> rfl

theorem sliding_state_frame (k1 : String) (o : AlgOptions) (now : ℚ) (s : MemState)
    (k' : String) (h1 : k' ≠ k1) :
    (SlidingWindow.check memStore k1 o now s).2 k' = s k' := by
  simp only [SlidingWindow.check, memStore, MemoryStore.get, MemoryStore.increment,
    MemoryStore.set]
  rcases hsk : s k1 with _ | e
  · by_cases hn : jsTruthyQ (some now) = true <;> simp [hsk, hn, MemState.insert, h1]
  · rcases hreq : e.val.requests with _ | reqs <;>
      by_cases hn : jsTruthyQ (some now) = true <;>
      simp [hsk, hreq, hn, MemState.insert, h1]

theorem fixed_state_frame (k1 : String) (o : AlgOptions) (now : ℚ) (s : MemState)
    (k' : String) (h2 : ∀ w : ℤ, k' ≠ FixedWindow.fullKey k1 w) :
    (FixedWindow.check memStore k1 o now s).2 k' = s k' := by
  simp only [FixedWindow.check, memStore, MemoryStore.increment]
  rcases hsk : s (FixedWindow.fullKey k1 ⌊now / o.windowMs⌋) with _ | e <;>
    simp [hsk, MemState.insert, h2 ⌊now / o.windowMs⌋, jsTruthyQ]

theorem token_state_frame (k1 : String) (o : AlgOptions) (now : ℚ) (s : MemState)
    (k' : String) (h1 : k' ≠ k1) :
    (TokenBucket.check memStore k1 o now s).2 k' = s k' := by
  simp only [TokenBucket.check, memStore, MemoryStore.get, MemoryStore.set]
  repeat' split
  all_goals simp [MemState.insert, h1]

theorem leaky_state_frame (k1 : String) (o : AlgOptions) (now : ℚ) (s : MemState)
    (k' : String) (h1 : k' ≠ k1) :
    (LeakyBucket.check memStore k1 o now s).2 k' = s k' := by
  simp only [LeakyBucket.check, memStore, MemoryStore.get, MemoryStore.set]
  repeat' split
  all_goals simp [MemState.insert, h1]

theorem alg_state_frame (a : Algorithm) (k1 : String) (o : AlgOptions) (now : ℚ)
    (s : MemState) (k' : String) (h1 : k' ≠ k1)
    (h2 : a = .fixedWindow → ∀ w : ℤ, k' ≠ FixedWindow.fullKey k1 w) :
    (a.check memStore k1 o now s).2 k' = s k' := by
  cases a
  case slidingWindow => exact sliding_state_frame k1 o now s k' h1
  case fixedWindow => exact fixed_state_frame k1 o now s k' (h2 rfl)
  case tokenBucket => exact token_state_frame k1 o now s k' h1
  case leakyBucket => exact leaky_state_frame k1 o now s k' h1

theorem check_state_frame {Ctx : Type} (opts : LimiterOptions Ctx) (k1 : String)
    (req : Option Ctx) (extras : CtxExtras) (now : ℚ) (s : MemState) (k' : String)
    (h1 : k' ≠ k1)
    (h2 : opts.algorithm = .fixedWindow → ∀ w : ℤ, k' ≠ FixedWindow.fullKey k1 w) :
    (RateLimiter.check memStore opts k1 req extras now s).2 k' = s k' := by
  rw [RateLimiter.check]
  by_cases hk : k1 = ""
  · rw [if_pos hk]
  · rw [if_neg hk]
    cases hmax : resolveMax opts.max req with
    | error e => rfl
    | ok m =>
        have hframe := alg_state_frame opts.algorithm k1
          (extras.algOptions opts.windowMs) now s k' h1 h2
        rcases hA : opts.algorithm.check memStore k1 (extras.algOptions opts.windowMs) now s
          with ⟨resA, stA⟩
        rw [hA] at hframe
        cases resA <;> simpa using hframe

theorem applyOp_frame {Ctx : Type} (opts : LimiterOptions Ctx) (k1 : String)
    (s : MemState) (op : ClientOp) (k' : String) (h1 : k' ≠ k1)
    (h2 : opts.algorithm = .fixedWindow → ∀ w : ℤ, k' ≠ FixedWindow.fullKey k1 w) :
    applyOp opts k1 s op k' = s k' := by
  cases op with
  | checkOp now extras => exact check_state_frame opts k1 none extras now s k' h1 h2
  | resetOp =>
      by_cases hk : k1 = "" <;>
        simp [applyOp, RateLimiter.reset, hk, memStore, MemoryStore.reset,
          MemState.erase, h1]
  | decOp =>
      simp only [applyOp, memStore, MemoryStore.decrement]
      rcases hsk : s k1 with _ | e
      · simp [hsk]
      · rcases hc : e.val.count with _ | c <;>
          rcases hreq : e.val.requests with _ | l <;>
          simp [hsk, hc, hreq, MemState.insert, h1] <;>
          split <;> simp [MemState.insert, h1]

theorem applyOps_frame {Ctx : Type} (opts : LimiterOptions Ctx) (k1 : String)
    (ops : List ClientOp) (s : MemState) (k' : String) (h1 : k' ≠ k1)
    (h2 : opts.algorithm = .fixedWindow → ∀ w : ℤ, k' ≠ FixedWindow.fullKey k1 w) :
    applyOps opts k1 s ops k' = s k' := by
  induction ops generalizing s with
  | nil => rfl
  | cons op rest ih =>
      have hstep : applyOps opts k1 s (op :: rest)
          = applyOps opts k1 (applyOp opts k1 s op) rest := rfl
      rw [hstep, ih (applyOp opts k1 s op)]
      exact applyOp_frame opts k1 s op k' h1 h2

theorem digitChar_ne_colon : ∀ n : ℕ, n < 10 → Nat.digitChar n ≠ ':' := by decide

theorem toDigitsCore_ne_colon :
    ∀ (fuel n : ℕ) (acc : List Char), (∀ c ∈ acc, c ≠ ':') →
      ∀ c ∈ Nat.toDigitsCore 10 fuel n acc, c ≠ ':' := by
  intro fuel
  induction fuel with
  | zero =>
      intro n acc hacc
      simpa [Nat.toDigitsCore] using hacc
  | succ f ih =>
      intro n acc hacc c hc
      rw [Nat.toDigitsCore] at hc
      have hd : Nat.digitChar (n % 10) ≠ ':' :=
        digitChar_ne_colon _ (Nat.mod_lt _ (by norm_num))
      have hacc' : ∀ c ∈ Nat.digitChar (n % 10) :: acc, c ≠ ':' := by
        intro c' hc'
        rcases List.mem_cons.mp hc' with h | h
        · rw [h]; exact hd
        · exact hacc c' h
      split at hc
      · exact hacc' c hc
      · exact ih (n / 10) _ hacc' c hc

theorem natRepr_ne_colon (n : ℕ) : ∀ c ∈ (Nat.repr n).data, c ≠ ':' := by
  intro c hc
  exact toDigitsCore_ne_colon (n + 1) n [] (by simp) c
    (by simpa [Nat.repr, Nat.toDigits, List.asString] using hc)

theorem string_data_append (a b : String) : (a ++ b).data = a.data ++ b.data := rfl

theorem intRepr_ne_colon (i : ℤ) : ∀ c ∈ (toString i).data, c ≠ ':' := by
  cases i with
  | ofNat m =>
      intro c hc
      exact natRepr_ne_colon m c hc
  | negSucc m =>
      intro c hc
      have : c ∈ ("-" ++ Nat.repr (m + 1)).data := hc
      rw [string_data_append] at this
      rcases List.mem_append.mp this with h | h
      · have hcm : c = '-' := by simpa using h
        rw [hcm]
        decide
      · exact natRepr_ne_colon (m + 1) c h

theorem append_colon_right_cancel :
    ∀ (a b x y : List Char), (∀ c ∈ x, c ≠ ':') → (∀ c ∈ y, c ≠ ':') →
      a ++ ':' :: x = b ++ ':' :: y → a = b := by
  intro a
  induction a with
  | nil =>
      intro b x y hx hy h
      cases b with
      | nil => rfl
      | cons d bs =>
          simp only [List.nil_append, List.cons_append, List.cons.injEq] at h
          obtain ⟨hd, hx'⟩ := h
          have hmem : (':' : Char) ∈ x := by
            rw [hx']
            simp
          exact absurd rfl (hx ':' hmem)
  | cons d as ih =>
      intro b x y hx hy h
      cases b with
      | nil =>
          simp only [List.nil_append, List.cons_append, List.cons.injEq] at h
          obtain ⟨hd, hy'⟩ := h
          have hmem : (':' : Char) ∈ y := by
            rw [← hy']
            simp
          exact absurd rfl (hy ':' hmem)
      | cons d' bs =>
          simp only [List.cons_append, List.cons.injEq] at h
          obtain ⟨hd, ht⟩ := h
          rw [hd, ih bs x y hx hy ht]

theorem fullKey_inj (k1 k2 : String) (w1 w2 : ℤ)
    (h : FixedWindow.fullKey k1 w1 = FixedWindow.fullKey k2 w2) : k1 = k2 := by
  have hd := congrArg String.data h
  rw [FixedWindow.fullKey, FixedWindow.fullKey, string_data_append, string_data_append,
    string_data_append, string_data_append] at hd
  have h1 : k1.data ++ ':' :: (toString w1).data
      = k2.data ++ ':' :: (toString w2).data := by
    simpa [List.append_assoc] using hd
  have hk := append_colon_right_cancel k1.data k2.data _ _
    (intRepr_ne_colon w1) (intRepr_ne_colon w2) h1
  cases k1
  cases k2
  exact congrArg String.mk (by simpa using hk)

unseal Rat.add Rat.sub Rat.mul Rat.inv in
/-- C9 counterexample: under the fixed-window algorithm (`windowMs = 10`,
clock `5`) the counter of key `"a"` lives at the derived store key
`"a:0"`; a `reset` against the distinct key `"a:0"` deletes that record,
so the next check of `"a"` reports `current = 1` instead of `4`. -/
theorem key_independence_claim_false :
    ("a:0" : String) ≠ "a" ∧
    ((RateLimiter.check memStore (⟨10, .num 5, .fixedWindow⟩ : LimiterOptions Unit)
        "a" none {} 5
        (applyOps (⟨10, .num 5, .fixedWindow⟩ : LimiterOptions Unit) "a:0"
          (MemState.empty.insert "a:0" ⟨{ count := some 3 }, none⟩)
          [ClientOp.resetOp])).1.map (fun d => d.current) = .ok 1) ∧
    ((RateLimiter.check memStore (⟨10, .num 5, .fixedWindow⟩ : LimiterOptions Unit)
        "a" none {} 5
        (MemState.empty.insert "a:0" ⟨{ count := some 3 }, none⟩)).1.map
        (fun d => d.current) = .ok 4) ∧
    (1 : ℚ) ≠ 4 := by
  exact ⟨by decide, by decide, by decide, by norm_num⟩

/-- C9 amended: for two distinct keys `k1 ≠ k2` such that `k1` is not
itself a fixed-window derived key of `k2` (that is, not of the form
`k2 ++ ":" ++ ⟨window index⟩`), any sequence of check/reset/decrement
operations against `k1` leaves the Decision of a subsequent check of `k2`
unchanged; without that proviso the fixed-window key scheme lets `reset`
and `decrement` on `k1` alias `k2`'s window counters. -/
theorem key_independence_amended {Ctx : Type} (opts : LimiterOptions Ctx)
    (k1 k2 : String) (hne : k1 ≠ k2)
    (halias : ∀ w : ℤ, k1 ≠ FixedWindow.fullKey k2 w)
    (ops : List ClientOp) (s : MemState) (now : ℚ) (extras : CtxExtras) :
    (RateLimiter.check memStore opts k2 none extras now (applyOps opts k1 s ops)).1
      = (RateLimiter.check memStore opts k2 none extras now s).1 := by
  have h1 : readKey opts.algorithm k2 opts.windowMs now ≠ k1 := by
    cases halg : opts.algorithm <;> simp only [readKey]
    case slidingWindow => exact Ne.symm hne
    case fixedWindow => exact fun h => (halias ⌊now / opts.windowMs⌋) h.symm
    case tokenBucket => exact Ne.symm hne
    case leakyBucket => exact Ne.symm hne
  have h2 : opts.algorithm = .fixedWindow →
      ∀ w : ℤ, readKey opts.algorithm k2 opts.windowMs now
        ≠ FixedWindow.fullKey k1 w := by
    intro hfix w
    rw [hfix]
    simp only [readKey]
    intro h
    exact hne (fullKey_inj k2 k1 ⌊now / opts.windowMs⌋ w h).symm
  apply check_fst_congr
  apply alg_fst_congr
  exact applyOps_frame opts k1 ops s _ h1 h2

unseal Rat.add Rat.sub Rat.mul Rat.inv in
/-- C9 witness: a reset and a decrement against key `"b"` leave the
fixed-window decision of key `"a"` unchanged. -/
theorem key_independence_amended_witness :
    ("b" : String) ≠ "a" ∧
    (∀ w : ℤ, ("b" : String) ≠ FixedWindow.fullKey "a" w) ∧
    ((RateLimiter.check memStore (⟨10, .num 5, .fixedWindow⟩ : LimiterOptions Unit)
        "a" none {} 5
        (applyOps (⟨10, .num 5, .fixedWindow⟩ : LimiterOptions Unit) "b"
          MemState.empty [ClientOp.resetOp, ClientOp.decOp])).1
      = (RateLimiter.check memStore (⟨10, .num 5, .fixedWindow⟩ : LimiterOptions Unit)
          "a" none {} 5 MemState.empty).1) ∧
    ((RateLimiter.check memStore (⟨10, .num 5, .fixedWindow⟩ : LimiterOptions Unit)
        "a" none {} 5 MemState.empty).1.map (fun d => (d.current, d.allowed))
      = .ok (1, true)) := by
  have halias : ∀ w : ℤ, ("b" : String) ≠ FixedWindow.fullKey "a" w := by
    intro w h
    have hd := congrArg String.data h
    rw [FixedWindow.fullKey, string_data_append, string_data_append] at hd
    have hb : ("b" : String).data = ['b'] := rfl
    have ha : ("a" : String).data = ['a'] := rfl
    have hcolon : (":" : String).data = [':'] := rfl
    rw [hb, ha, hcolon] at hd
    simp at hd
  refine ⟨by decide, halias, ?_, by decide⟩
  exact key_independence_amended (⟨10, .num 5, .fixedWindow⟩ : LimiterOptions Unit)
    "b" "a" (by decide) halias [ClientOp.resetOp, ClientOp.decOp] MemState.empty 5 {}

end FlexRateLimit
